import Mathlib

/-!
Shallow embedding of the Intcode virtual machine of `src/intcode.rs`
(repository voetsjoeba/aoc2019).

Modelling conventions:
* Rust `i64` values are modelled as `Int`.  Truncated division/remainder
  (Rust `/` and `%` on signed integers) are `Int.tdiv` / `Int.tmod`.
* Rust `usize` is modelled as `Nat`; the Rust cast `x as usize` on an `i64`
  is a two's-complement reinterpretation, modelled by `i64ToUsize`
  (reduction modulo 2^64, always producing a non-negative value).
* A Rust `panic!` (and the `.unwrap()` of an `Err` decode result) is a
  fatal, process-aborting error; fallible operations therefore return
  `Option`, with `none` standing for the fatal abort.
* The `VecDeque` queues are modelled as lists with the front at the head;
  `push_back` appends at the tail.
* The `HashMap<usize, i64>` of sparse extra memory is modelled as an
  association list (`assocSet` / lookup via `List.find?`); the map's
  iteration order is never observed by the code under scrutiny.
* The `while` loop of `CPU::run` is modelled with explicit fuel
  (`runLoop`); `run fuel c = some c2` asserts that the loop terminates
  within `fuel` iterations with final CPU `c2` and no fatal error.
-/

namespace Intcode

/-- The ten opcodes of `enum Op` in `intcode.rs`. -/
inductive Op where
  | add
  | mul
  | input
  | output
  | jumpIfTrue
  | jumpIfFalse
  | lessThan
  | equals
  | shiftRelativeBase
  | halt
deriving DecidableEq

/-- The three addressing modes of `enum ParamMode`
(`Address` = positional, `Immediate`, `RelativeAddress`). -/
inductive ParamMode where
  | address
  | immediate
  | relativeAddress
deriving DecidableEq

/-- `impl TryFrom<i64> for ParamMode`: digit 0, 1, 2 decode; all else fails. -/
def ParamMode.tryFrom (val : Int) : Option ParamMode :=
  if val = 0 then some ParamMode.address
  else if val = 1 then some ParamMode.immediate
  else if val = 2 then some ParamMode.relativeAddress
  else none

/-- `struct Instruction` of `intcode.rs`. -/
structure Instruction where
  opcode : Op
  num_params : Nat
  param_modes : List ParamMode
deriving DecidableEq

/-- The mode-digit extraction loop of `Instruction::try_make`:
starting from operand index `i`, decode `n` further addressing-mode digits
of `value` (the digit for operand `j` sits at decimal position `2 + j`),
failing on the first digit that is not 0, 1 or 2. -/
def modeDigits (value : Int) : Nat → Nat → Option (List ParamMode)
  | _, 0 => some []
  | i, n + 1 => do
      let m ← ParamMode.tryFrom ((value.tdiv (10 ^ (2 + i))).tmod 10)
      let rest ← modeDigits value (i + 1) n
      pure (m :: rest)

/-- `Instruction::try_make`: build an instruction with the given opcode and
operand count, decoding that many addressing-mode digits of `value`. -/
def Instruction.tryMake (opcode : Op) (numParams : Nat) (value : Int) :
    Option Instruction :=
  (modeDigits value 0 numParams).map fun ms =>
    { opcode := opcode, num_params := numParams, param_modes := ms }

/-- `impl TryFrom<i64> for Instruction`: dispatch on `value % 100`
(Rust truncated remainder). -/
def Instruction.tryFrom (value : Int) : Option Instruction :=
  if value.tmod 100 = 1 then Instruction.tryMake Op.add 3 value
  else if value.tmod 100 = 2 then Instruction.tryMake Op.mul 3 value
  else if value.tmod 100 = 3 then Instruction.tryMake Op.input 1 value
  else if value.tmod 100 = 4 then Instruction.tryMake Op.output 1 value
  else if value.tmod 100 = 5 then Instruction.tryMake Op.jumpIfTrue 2 value
  else if value.tmod 100 = 6 then Instruction.tryMake Op.jumpIfFalse 2 value
  else if value.tmod 100 = 7 then Instruction.tryMake Op.lessThan 3 value
  else if value.tmod 100 = 8 then Instruction.tryMake Op.equals 3 value
  else if value.tmod 100 = 9 then Instruction.tryMake Op.shiftRelativeBase 1 value
  else if value.tmod 100 = 99 then Instruction.tryMake Op.halt 0 value
  else none

/-- `Instruction::param_mode` indexes `param_modes[num]`; an out-of-range
index is a Rust panic, modelled as `none`. -/
def Instruction.param_mode (i : Instruction) (num : Nat) : Option ParamMode :=
  i.param_modes[num]?

/-- `Instruction::size`: operand count plus one. -/
def Instruction.size (i : Instruction) : Nat :=
  i.num_params + 1

/-- `enum CpuState` (`WaitIO` is the waiting-for-input state). -/
inductive CpuState where
  | running
  | halted
  | waitIo
deriving DecidableEq

/-- `struct Memory`: the original program image plus a sparse map of cells
written beyond it. -/
structure Memory where
  initial_data : List Int
  extra : List (Nat × Int)
deriving DecidableEq

/-- `Memory::new`. -/
def Memory.new (initial_data : List Int) : Memory :=
  { initial_data := initial_data, extra := [] }

/-- Association-list update mirroring the `HashMap` insertion of
`IndexMut for Memory` (net effect: key `k` now maps to `v`). -/
def assocSet : List (Nat × Int) → Nat → Int → List (Nat × Int)
  | [], k, v => [(k, v)]
  | p :: rest, k, v =>
      if p.1 = k then (k, v) :: rest else p :: assocSet rest k v

/-- Association-list lookup mirroring `HashMap::get`. -/
def assocGet : List (Nat × Int) → Nat → Option Int
  | [], _ => none
  | p :: rest, k => if p.1 = k then some p.2 else assocGet rest k

/-- `impl Index<usize> for Memory`: in-image addresses read the image,
others read the sparse map, defaulting to 0. -/
def Memory.read (m : Memory) (addr : Nat) : Int :=
  if addr < m.initial_data.length then m.initial_data.getD addr 0
  else (assocGet m.extra addr).getD 0

/-- `impl IndexMut<usize> for Memory` followed by a store: in-image
addresses mutate the image vector, others update the sparse map. -/
def Memory.write (m : Memory) (addr : Nat) (v : Int) : Memory :=
  if addr < m.initial_data.length then
    { m with initial_data := m.initial_data.set addr v }
  else
    { m with extra := assocSet m.extra addr v }

/-- The Rust cast `x as usize` on an `i64` (64-bit two's-complement
reinterpretation): reduce modulo 2^64, never negative, never failing. -/
def i64ToUsize (x : Int) : Nat :=
  (x % (2 ^ 64 : Int)).toNat

/-- `struct CPU`. -/
structure CPU where
  pc : Nat
  mem : Memory
  input_queue : List Int
  output_queue : List Int
  state : CpuState
  relative_base : Int
deriving DecidableEq

/-- `CPU::new` (note: the freshly built CPU starts in the `Halted` state). -/
def CPU.new (program : List Int) : CPU :=
  { pc := 0
    mem := Memory.new program
    input_queue := []
    output_queue := []
    state := CpuState.halted
    relative_base := 0 }

/-- `CPU::read_param`: fetch operand `num` of the current instruction and
resolve it according to its addressing mode.  Negative computed addresses
are wrapped by the `as usize` cast, not rejected. -/
def CPU.read_param (c : CPU) (num : Nat) (instr : Instruction) : Option Int :=
  let param_value := c.mem.read (c.pc + 1 + num)
  match instr.param_mode num with
  | none => none
  | some ParamMode.immediate => some param_value
  | some ParamMode.address => some (c.mem.read (i64ToUsize param_value))
  | some ParamMode.relativeAddress =>
      some (c.mem.read (i64ToUsize (c.relative_base + param_value)))

/-- `CPU::write_param`: resolve the destination operand and store `value`.
An immediate-mode destination is a `panic!` (`none`); negative computed
addresses are wrapped by the `as usize` cast, not rejected. -/
def CPU.write_param (c : CPU) (num : Nat) (instr : Instruction) (value : Int) :
    Option Memory :=
  let param_value := c.mem.read (c.pc + 1 + num)
  match instr.param_mode num with
  | none => none
  | some ParamMode.immediate => none
  | some ParamMode.address => some (c.mem.write (i64ToUsize param_value) value)
  | some ParamMode.relativeAddress =>
      some (c.mem.write (i64ToUsize (c.relative_base + param_value)) value)

/-- `CPU::execute`: run one decoded instruction.  Panics (`none`) when the
CPU is already halted, on an immediate-mode destination, and on an
out-of-range operand index.  Arithmetic is exact (`i64` overflow is not
exercised by any behaviour under scrutiny). -/
def CPU.execute (c : CPU) (instr : Instruction) : Option CPU :=
  if c.state = CpuState.halted then none
  else
    match instr.opcode with
    | Op.add => do
        let arg1 ← c.read_param 0 instr
        let arg2 ← c.read_param 1 instr
        let m ← c.write_param 2 instr (arg1 + arg2)
        pure { c with mem := m, pc := c.pc + 4 }
    | Op.mul => do
        let arg1 ← c.read_param 0 instr
        let arg2 ← c.read_param 1 instr
        let m ← c.write_param 2 instr (arg1 * arg2)
        pure { c with mem := m, pc := c.pc + 4 }
    | Op.input =>
        match c.input_queue with
        | inp :: rest => do
            let m ← c.write_param 0 instr inp
            pure { c with mem := m, input_queue := rest, pc := c.pc + 2,
                          state := CpuState.running }
        | [] => pure { c with state := CpuState.waitIo }
    | Op.output => do
        let value ← c.read_param 0 instr
        pure { c with output_queue := c.output_queue ++ [value], pc := c.pc + 2 }
    | Op.jumpIfTrue => do
        let value ← c.read_param 0 instr
        let jump_pc ← c.read_param 1 instr
        pure { c with pc := if value = 0 then c.pc + 3 else i64ToUsize jump_pc }
    | Op.jumpIfFalse => do
        let value ← c.read_param 0 instr
        let jump_pc ← c.read_param 1 instr
        pure { c with pc := if value = 0 then i64ToUsize jump_pc else c.pc + 3 }
    | Op.lessThan => do
        let arg1 ← c.read_param 0 instr
        let arg2 ← c.read_param 1 instr
        let m ← c.write_param 2 instr (if arg1 < arg2 then 1 else 0)
        pure { c with mem := m, pc := c.pc + 4 }
    | Op.equals => do
        let arg1 ← c.read_param 0 instr
        let arg2 ← c.read_param 1 instr
        let m ← c.write_param 2 instr (if arg1 = arg2 then 1 else 0)
        pure { c with mem := m, pc := c.pc + 4 }
    | Op.shiftRelativeBase => do
        let arg1 ← c.read_param 0 instr
        pure { c with relative_base := c.relative_base + arg1, pc := c.pc + 2 }
    | Op.halt => pure { c with state := CpuState.halted }

/-- `CPU::step`: decode the word at `pc` (`.unwrap()` turns a decode error
into a panic, i.e. `none`) and execute it. -/
def CPU.step (c : CPU) : Option CPU := do
  let instr ← Instruction.tryFrom (c.mem.read c.pc)
  c.execute instr

/-- The `while state == Running` loop body of `CPU::run`, with fuel. -/
def runLoop : Nat → CPU → Option CPU
  | 0, _ => none
  | fuel + 1, c =>
      if c.state = CpuState.running then
        match c.step with
        | none => none
        | some c2 => runLoop fuel c2
      else some c

/-- `CPU::run`: set the state to `Running`, then step until the state is no
longer `Running`.  `run fuel c = some c2` means the loop finishes within
`fuel` iterations, without any fatal error, in state `c2`. -/
def CPU.run (fuel : Nat) (c : CPU) : Option CPU :=
  runLoop fuel { c with state := CpuState.running }

/-- `CPU::send_input`: push one value on the back of the input queue. -/
def CPU.send_input (c : CPU) (input : Int) : CPU :=
  { c with input_queue := c.input_queue ++ [input] }

/-- `CPU::peek_output_last`: the last (most recently pushed) value of the
output queue, if any.  The Rust method takes `&self`, so it is a pure
observation and is modelled as a function of the CPU alone. -/
def CPU.peek_output_last (c : CPU) : Option Int :=
  c.output_queue.getLast?

/-- `CPU::consume_output_n`: remove and return the first `n` output values
if at least that many are buffered, otherwise return `None` and leave the
queue untouched.  Returns the result together with the updated CPU. -/
def CPU.consume_output_n (c : CPU) (n : Nat) : Option (List Int) × CPU :=
  if n ≤ c.output_queue.length then
    (some (c.output_queue.take n), { c with output_queue := c.output_queue.drop n })
  else
    (none, c)

/-- `CPU::consume_output_all`: drain the whole output queue. -/
def CPU.consume_output_all (c : CPU) : List Int × CPU :=
  (c.output_queue, { c with output_queue := [] })


/-! ### Helper lemmas about the sparse-memory association list -/

theorem assocGet_assocSet_self (l : List (Nat × Int)) (k : Nat) (v : Int) :
    assocGet (assocSet l k v) k = some v := by
  induction l with
  | nil => simp [assocSet, assocGet]
  | cons p rest ih =>
      by_cases h : p.1 = k
      · simp [assocSet, assocGet, h]
      · simp [assocSet, assocGet, h, ih]

theorem assocGet_assocSet_ne (l : List (Nat × Int)) (k k2 : Nat) (v : Int)
    (h : k2 ≠ k) :
    assocGet (assocSet l k v) k2 = assocGet l k2 := by
  induction l with
  | nil => simp [assocSet, assocGet, Ne.symm h]
  | cons p rest ih =>
      by_cases hpk : p.1 = k
      · subst hpk
        simp [assocSet, assocGet, Ne.symm h]
      · simp [assocSet, assocGet, hpk, ih]

theorem Memory.write_length (m : Memory) (addr : Nat) (v : Int) :
    (m.write addr v).initial_data.length = m.initial_data.length := by
  unfold Memory.write
  split <;> simp

/-- C7 helper: reading a fresh memory image. -/
theorem Memory.read_new (prog : List Int) (addr : Nat) :
    (Memory.new prog).read addr = prog.getD addr 0 := by
  unfold Memory.read Memory.new
  split
  · rfl
  · rename_i h
    simp only [assocGet, Option.getD_none]
    simp at h
    simp [List.getD, List.getElem?_eq_none h]

/-- C7 helper: read-after-write returns the written value. -/
theorem Memory.read_write_self (m : Memory) (addr : Nat) (v : Int) :
    (m.write addr v).read addr = v := by
  unfold Memory.read Memory.write
  by_cases h : addr < m.initial_data.length
  · simp [h, List.getD, List.getElem?_set, h]
  · simp [h, assocGet_assocSet_self]

/-- C7 helper: writing one address leaves every other address unchanged. -/
theorem Memory.read_write_ne (m : Memory) (a b : Nat) (v : Int) (hab : a ≠ b) :
    (m.write a v).read b = m.read b := by
  unfold Memory.read Memory.write
  by_cases ha : a < m.initial_data.length
  · by_cases hb : b < m.initial_data.length
    · simp [ha, hb, List.getD, List.getElem?_set, hab]
    · simp [ha, hb]
  · by_cases hb : b < m.initial_data.length
    · simp [ha, hb]
    · simp [ha, hb, assocGet_assocSet_ne m.extra a b v hab.symm]


/-! ### Helper lemmas about instruction decoding -/

theorem ParamMode.tryFrom_isSome_iff (d : Int) :
    (ParamMode.tryFrom d).isSome ↔ d = 0 ∨ d = 1 ∨ d = 2 := by
  unfold ParamMode.tryFrom
  split_ifs <;> simp_all

theorem ParamMode.tryFrom_eq_none_iff (d : Int) :
    ParamMode.tryFrom d = none ↔ d ≠ 0 ∧ d ≠ 1 ∧ d ≠ 2 := by
  unfold ParamMode.tryFrom
  split_ifs <;> simp_all

theorem modeDigits_isSome_iff (value : Int) (i n : Nat) :
    (modeDigits value i n).isSome ↔
      ∀ j, j < n →
        (ParamMode.tryFrom ((value.tdiv (10 ^ (2 + (i + j)))).tmod 10)).isSome := by
  induction n generalizing i with
  | zero => simp [modeDigits]
  | succ n ih =>
      unfold modeDigits
      cases hd : ParamMode.tryFrom ((value.tdiv (10 ^ (2 + i))).tmod 10) with
      | none =>
          constructor
          · intro h
            simp [hd] at h
          · intro hall
            have := hall 0 (Nat.succ_pos n)
            rw [Nat.add_zero, hd] at this
            simp at this
      | some m =>
          cases hr : modeDigits value (i + 1) n with
          | none =>
              constructor
              · intro h
                simp [hd, hr] at h
              · intro hall
                have h2 : (modeDigits value (i + 1) n).isSome := by
                  rw [ih (i + 1)]
                  intro j hj
                  have := hall (j + 1) (by omega)
                  have harith : 2 + (i + (j + 1)) = 2 + (i + 1 + j) := by omega
                  rwa [harith] at this
                rw [hr] at h2
                simp at h2
          | some ms =>
              constructor
              · intro _ j hj
                cases j with
                | zero =>
                    rw [Nat.add_zero, hd]
                    simp
                | succ j =>
                    have h2 : (modeDigits value (i + 1) n).isSome := by
                      rw [hr]
                      rfl
                    rw [ih (i + 1)] at h2
                    have := h2 j (by omega)
                    have harith : 2 + (i + 1 + j) = 2 + (i + (j + 1)) := by omega
                    rwa [harith] at this
              · intro _
                simp [hd, hr]

theorem modeDigits_some (value : Int) (i n : Nat) (ms : List ParamMode)
    (h : modeDigits value i n = some ms) :
    ms.length = n ∧
      ∀ j, j < n →
        ms[j]? = ParamMode.tryFrom ((value.tdiv (10 ^ (2 + (i + j)))).tmod 10) := by
  induction n generalizing i ms with
  | zero =>
      unfold modeDigits at h
      simp at h
      subst h
      simp
  | succ n ih =>
      unfold modeDigits at h
      cases hd : ParamMode.tryFrom ((value.tdiv (10 ^ (2 + i))).tmod 10) with
      | none => rw [hd] at h; simp at h
      | some m =>
          rw [hd] at h
          cases hr : modeDigits value (i + 1) n with
          | none => rw [hr] at h; simp at h
          | some rest =>
              rw [hr] at h
              simp at h
              subst h
              obtain ⟨hlen, hget⟩ := ih (i + 1) rest hr
              refine ⟨by simp [hlen], ?_⟩
              intro j hj
              cases j with
              | zero =>
                  rw [Nat.add_zero, hd]
                  simp
              | succ j =>
                  have := hget j (by omega)
                  have harith : 2 + (i + 1 + j) = 2 + (i + (j + 1)) := by omega
                  rw [harith] at this
                  simpa using this

theorem modeDigits_congr (v w : Int) (i n : Nat)
    (h : ∀ j, j < n →
      (w.tdiv (10 ^ (2 + (i + j)))).tmod 10 = (v.tdiv (10 ^ (2 + (i + j)))).tmod 10) :
    modeDigits w i n = modeDigits v i n := by
  induction n generalizing i with
  | zero => rfl
  | succ n ih =>
      unfold modeDigits
      have h0 := h 0 (Nat.succ_pos n)
      rw [Nat.add_zero] at h0
      rw [h0]
      have h2 : modeDigits w (i + 1) n = modeDigits v (i + 1) n := by
        apply ih
        intro j hj
        have := h (j + 1) (by omega)
        have harith : 2 + (i + (j + 1)) = 2 + (i + 1 + j) := by omega
        rwa [harith] at this
      rw [h2]

theorem Instruction.tryMake_some {op : Op} {n : Nat} {w : Int}
    {instr : Instruction} (h : Instruction.tryMake op n w = some instr) :
    instr.opcode = op ∧ instr.num_params = n ∧
      modeDigits w 0 n = some instr.param_modes := by
  unfold Instruction.tryMake at h
  cases hm : modeDigits w 0 n with
  | none => rw [hm] at h; simp at h
  | some ms =>
      rw [hm] at h
      simp at h
      subst h
      exact ⟨rfl, rfl, rfl⟩


/-- The dispatch table of `impl TryFrom<i64> for Instruction`: opcode
residue mod 100, opcode, operand count. -/
def opcodeTable : List (Int × Op × Nat) :=
  [(1, Op.add, 3), (2, Op.mul, 3), (3, Op.input, 1), (4, Op.output, 1), (5, Op.jumpIfTrue, 2), (6, Op.jumpIfFalse, 2), (7, Op.lessThan, 3), (8, Op.equals, 3), (9, Op.shiftRelativeBase, 1), (99, Op.halt, 0)]

theorem Instruction.tryFrom_cases {w : Int} {instr : Instruction}
    (h : Instruction.tryFrom w = some instr) :
    Instruction.tryMake instr.opcode instr.num_params w = some instr ∧
    (w.tmod 100, instr.opcode, instr.num_params) ∈ opcodeTable := by
  unfold Instruction.tryFrom at h
  by_cases h1 : w.tmod 100 = 1
  · rw [if_pos h1] at h
    obtain ⟨ho, hn, -⟩ := Instruction.tryMake_some h
    rw [ho, hn, h1]
    exact ⟨h, by simp [opcodeTable]⟩
  · rw [if_neg h1] at h
    by_cases h2 : w.tmod 100 = 2
    · rw [if_pos h2] at h
      obtain ⟨ho, hn, -⟩ := Instruction.tryMake_some h
      rw [ho, hn, h2]
      exact ⟨h, by simp [opcodeTable]⟩
    · rw [if_neg h2] at h
      by_cases h3 : w.tmod 100 = 3
      · rw [if_pos h3] at h
        obtain ⟨ho, hn, -⟩ := Instruction.tryMake_some h
        rw [ho, hn, h3]
        exact ⟨h, by simp [opcodeTable]⟩
      · rw [if_neg h3] at h
        by_cases h4 : w.tmod 100 = 4
        · rw [if_pos h4] at h
          obtain ⟨ho, hn, -⟩ := Instruction.tryMake_some h
          rw [ho, hn, h4]
          exact ⟨h, by simp [opcodeTable]⟩
        · rw [if_neg h4] at h
          by_cases h5 : w.tmod 100 = 5
          · rw [if_pos h5] at h
            obtain ⟨ho, hn, -⟩ := Instruction.tryMake_some h
            rw [ho, hn, h5]
            exact ⟨h, by simp [opcodeTable]⟩
          · rw [if_neg h5] at h
            by_cases h6 : w.tmod 100 = 6
            · rw [if_pos h6] at h
              obtain ⟨ho, hn, -⟩ := Instruction.tryMake_some h
              rw [ho, hn, h6]
              exact ⟨h, by simp [opcodeTable]⟩
            · rw [if_neg h6] at h
              by_cases h7 : w.tmod 100 = 7
              · rw [if_pos h7] at h
                obtain ⟨ho, hn, -⟩ := Instruction.tryMake_some h
                rw [ho, hn, h7]
                exact ⟨h, by simp [opcodeTable]⟩
              · rw [if_neg h7] at h
                by_cases h8 : w.tmod 100 = 8
                · rw [if_pos h8] at h
                  obtain ⟨ho, hn, -⟩ := Instruction.tryMake_some h
                  rw [ho, hn, h8]
                  exact ⟨h, by simp [opcodeTable]⟩
                · rw [if_neg h8] at h
                  by_cases h9 : w.tmod 100 = 9
                  · rw [if_pos h9] at h
                    obtain ⟨ho, hn, -⟩ := Instruction.tryMake_some h
                    rw [ho, hn, h9]
                    exact ⟨h, by simp [opcodeTable]⟩
                  · rw [if_neg h9] at h
                    by_cases h10 : w.tmod 100 = 99
                    · rw [if_pos h10] at h
                      obtain ⟨ho, hn, -⟩ := Instruction.tryMake_some h
                      rw [ho, hn, h10]
                      exact ⟨h, by simp [opcodeTable]⟩
                    · rw [if_neg h10] at h
                      exact absurd h (by simp)

theorem Instruction.tryFrom_of_table {w : Int} {op : Op} {n : Nat} {k : Int}
    (hmem : (k, op, n) ∈ opcodeTable) (hmod : w.tmod 100 = k) :
    Instruction.tryFrom w = Instruction.tryMake op n w := by
  simp only [opcodeTable, List.mem_cons, List.mem_singleton,
    List.not_mem_nil, or_false, Prod.mk.injEq] at hmem
  rcases hmem with h|h|h|h|h|h|h|h|h|h <;>
    · obtain ⟨hk, hop, hn⟩ := h
      subst hk
      subst hop
      subst hn
      simp [Instruction.tryFrom, hmod]

theorem Instruction.tryFrom_eq_none {w : Int}
    (h : w.tmod 100 ∉ ([1, 2, 3, 4, 5, 6, 7, 8, 9, 99] : List Int)) :
    Instruction.tryFrom w = none := by
  simp only [List.mem_cons, List.mem_singleton, not_or] at h
  obtain ⟨n1, n2, n3, n4, n5, n6, n7, n8, n9, n10⟩ := h
  simp [Instruction.tryFrom, n1, n2, n3, n4, n5, n6, n7, n8, n9, n10]


/-! ### Claim C2: instruction decoding -/

/-- C2: decoding a word `w` dispatches on the opcode `w % 100` (Rust
truncated remainder), which must be one of 1 (add, 3 operands), 2 (mul, 3),
3 (input, 1), 4 (output, 1), 5 (jump-if-true, 2), 6 (jump-if-false, 2),
7 (less-than, 3), 8 (equals, 3), 9 (adjust-relative-base, 1), 99 (halt, 0);
the addressing mode of operand `j` (0-indexed) is the decimal digit
`(w / 10^(2+j)) % 10`, which must be 0, 1 or 2; for every other opcode
value decoding fails, for every other mode digit within the declared
operand count decoding fails, and a failed decode makes `step` fail
fatally. -/
theorem instruction_decode_spec :
    ∀ w : Int,
      (∀ instr, Instruction.tryFrom w = some instr →
        (w.tmod 100, instr.opcode, instr.num_params) ∈
          ([(1, Op.add, 3), (2, Op.mul, 3), (3, Op.input, 1), (4, Op.output, 1),
            (5, Op.jumpIfTrue, 2), (6, Op.jumpIfFalse, 2), (7, Op.lessThan, 3),
            (8, Op.equals, 3), (9, Op.shiftRelativeBase, 1), (99, Op.halt, 0)] :
            List (Int × Op × Nat))) ∧
      (∀ instr, Instruction.tryFrom w = some instr →
        ∀ j, j < instr.num_params →
          instr.param_mode j =
            ParamMode.tryFrom ((w.tdiv (10 ^ (2 + j))).tmod 10) ∧
          ((w.tdiv (10 ^ (2 + j))).tmod 10 = 0 ∨
           (w.tdiv (10 ^ (2 + j))).tmod 10 = 1 ∨
           (w.tdiv (10 ^ (2 + j))).tmod 10 = 2)) ∧
      (w.tmod 100 ∉ ([1, 2, 3, 4, 5, 6, 7, 8, 9, 99] : List Int) →
        Instruction.tryFrom w = none) ∧
      (∀ (op : Op) (n : Nat),
        (∃ j, j < n ∧
          ParamMode.tryFrom ((w.tdiv (10 ^ (2 + j))).tmod 10) = none) →
        Instruction.tryMake op n w = none) ∧
      (∀ d : Int, ParamMode.tryFrom d = none ↔ d ≠ 0 ∧ d ≠ 1 ∧ d ≠ 2) ∧
      (∀ c : CPU, Instruction.tryFrom (c.mem.read c.pc) = none →
        c.step = none) := by
  intro w
  refine ⟨?_, ?_, Instruction.tryFrom_eq_none, ?_, ParamMode.tryFrom_eq_none_iff, ?_⟩
  · intro instr h
    exact (Instruction.tryFrom_cases h).2
  · intro instr h j hj
    obtain ⟨hmk, -⟩ := Instruction.tryFrom_cases h
    obtain ⟨-, -, hmd⟩ := Instruction.tryMake_some hmk
    obtain ⟨hlen, hget⟩ := modeDigits_some w 0 instr.num_params instr.param_modes hmd
    have hj2 := hget j hj
    rw [Nat.zero_add] at hj2
    have hsome : (instr.param_modes[j]?).isSome := by
      rw [List.getElem?_eq_getElem (by omega)]
      rfl
    constructor
    · rw [Instruction.param_mode, hj2]
    · rw [hj2] at hsome
      exact (ParamMode.tryFrom_isSome_iff _).mp hsome
  · intro op n ⟨j, hj, hnone⟩
    cases hmk : Instruction.tryMake op n w with
    | none => rfl
    | some instr =>
        obtain ⟨-, -, hmd⟩ := Instruction.tryMake_some hmk
        have hs : (modeDigits w 0 n).isSome := by rw [hmd]; rfl
        rw [modeDigits_isSome_iff] at hs
        have := hs j hj
        rw [Nat.zero_add, hnone] at this
        simp at this
  · intro c h
    unfold CPU.step
    rw [h]
    rfl

/-- C2 witness: the decode characterization applied at concrete words —
`102` decodes as mul with an immediate first operand, `50` has an unknown
opcode and fails, `301` has mode digit 3 and fails, and a CPU whose current
word is `50` panics on `step`. -/
theorem instruction_decode_spec_witness :
    Instruction.param_mode
      { opcode := Op.mul, num_params := 3,
        param_modes := [ParamMode.immediate, ParamMode.address, ParamMode.address] } 0 =
      ParamMode.tryFrom (((102 : Int).tdiv (10 ^ (2 + 0))).tmod 10) ∧
    Instruction.tryFrom 50 = none ∧
    Instruction.tryMake Op.add 3 301 = none ∧
    CPU.step ⟨0, Memory.new [50], [], [], CpuState.running, 0⟩ = none :=
  ⟨((instruction_decode_spec 102).2.1
      { opcode := Op.mul, num_params := 3,
        param_modes := [ParamMode.immediate, ParamMode.address, ParamMode.address] }
      (by decide) 0 (by decide)).1,
   (instruction_decode_spec 50).2.2.1 (by decide),
   (instruction_decode_spec 301).2.2.2.1 Op.add 3 ⟨0, by omega, by decide⟩,
   (instruction_decode_spec 50).2.2.2.2.2 ⟨0, Memory.new [50], [], [], CpuState.running, 0⟩
      (by decide)⟩


/-! ### Claim C9: digits above the declared mode digits are ignored -/

/-- C9: the decoder validates addressing-mode digits only for the opcode's
declared operand count — any word with the same opcode residue mod 100 and
the same mode digits for the declared operands decodes to the very same
instruction, so decimal digits above position `2 + (operand count - 1)` are
ignored entirely; in particular `9099` (halt with nonsense high digits)
decodes successfully, as does the add word `301101` with a nonzero digit
beyond its three mode digits. -/
theorem decode_ignores_high_digits :
    (∀ (w w2 : Int) (instr : Instruction),
      Instruction.tryFrom w = some instr →
      w2.tmod 100 = w.tmod 100 →
      (∀ j, j < instr.num_params →
        (w2.tdiv (10 ^ (2 + j))).tmod 10 = (w.tdiv (10 ^ (2 + j))).tmod 10) →
      Instruction.tryFrom w2 = some instr) ∧
    Instruction.tryFrom 9099 =
      some { opcode := Op.halt, num_params := 0, param_modes := [] } ∧
    Instruction.tryFrom 301101 =
      some { opcode := Op.add, num_params := 3,
             param_modes := [ParamMode.immediate, ParamMode.immediate,
                             ParamMode.address] } := by
  refine ⟨?_, by decide, by decide⟩
  intro w w2 instr h hmod hdig
  obtain ⟨hmk, hmem⟩ := Instruction.tryFrom_cases h
  rw [Instruction.tryFrom_of_table hmem hmod]
  rw [← hmk]
  unfold Instruction.tryMake
  rw [modeDigits_congr w w2 0 instr.num_params
    (by intro j hj; rw [Nat.zero_add]; exact hdig j hj)]

/-- C9 witness: the congruence applied at `w = 99`, `w2 = 9099` — the halt
opcode declares zero operands, so the high digit 9 of `9099` is ignored and
it decodes to the same instruction as `99`. -/
theorem decode_ignores_high_digits_witness :
    Instruction.tryFrom 9099 =
      some { opcode := Op.halt, num_params := 0, param_modes := [] } :=
  decode_ignores_high_digits.1 99 9099
    { opcode := Op.halt, num_params := 0, param_modes := [] }
    (by decide) (by decide) (fun j hj => absurd hj (by simp))


/-! ### Claim C1: the echo program -/

/-- C1: for the echo program `[3,0,4,0,99]`: after constructing a CPU and
calling `run()`, the status is the waiting-for-input state with an empty
output queue; calling `run()` again with the input queue still empty leaves
the status unchanged; after appending one integer `v` via `send_input`,
invoking `run()` — or `step()` then `run()` — halts with the output queue
containing exactly `[v]`. -/
theorem echo_program_spec (v : Int) :
    ∃ c1, CPU.run 16 (CPU.new [3, 0, 4, 0, 99]) = some c1 ∧
      c1.state = CpuState.waitIo ∧ c1.output_queue = [] ∧
      ∃ c2, c1.run 16 = some c2 ∧
        c2.state = CpuState.waitIo ∧ c2.output_queue = [] ∧
        ∃ c3, (c2.send_input v).run 16 = some c3 ∧
          c3.state = CpuState.halted ∧ c3.output_queue = [v] ∧
          ∃ c4, (c2.send_input v).step = some c4 ∧
            ∃ c5, c4.run 16 = some c5 ∧
              c5.state = CpuState.halted ∧ c5.output_queue = [v] :=
  ⟨⟨0, ⟨[3, 0, 4, 0, 99], []⟩, [], [], CpuState.waitIo, 0⟩, rfl, rfl, rfl,
   ⟨0, ⟨[3, 0, 4, 0, 99], []⟩, [], [], CpuState.waitIo, 0⟩, rfl, rfl, rfl,
   ⟨4, ⟨[v, 0, 4, 0, 99], []⟩, [], [v], CpuState.halted, 0⟩, rfl, rfl, rfl,
   ⟨2, ⟨[v, 0, 4, 0, 99], []⟩, [], [], CpuState.running, 0⟩, rfl,
   ⟨4, ⟨[v, 0, 4, 0, 99], []⟩, [], [v], CpuState.halted, 0⟩, rfl, rfl, rfl⟩


/-! ### Claim C5: input suspension semantics -/

theorem runLoop_succ (fuel : Nat) (c : CPU) :
    runLoop (fuel + 1) c =
      if c.state = CpuState.running then
        match c.step with
        | none => none
        | some c2 => runLoop fuel c2
      else some c := rfl

/-- C5: executing an input instruction with an empty input queue sets the
status to the waiting state and leaves pc, memory, relative base and both
queues unchanged; repeated `run()` (or `step()`) calls while the input
queue remains empty reproduce exactly that same state — no side effects at
all; once input `v` is at the front of the queue, the same instruction pops
it into the destination cell, advances pc by 2, and sets the status to
Running. -/
theorem input_suspension_spec :
    ∀ (c : CPU) (instr : Instruction),
      Instruction.tryFrom (c.mem.read c.pc) = some instr →
      instr.opcode = Op.input →
      c.state ≠ CpuState.halted →
      ((c.input_queue = [] →
          c.step = some { c with state := CpuState.waitIo } ∧
          (∀ fuel, 2 ≤ fuel →
            c.run fuel = some { c with state := CpuState.waitIo }) ∧
          (∀ fuel, 2 ≤ fuel →
            CPU.run fuel { c with state := CpuState.waitIo } =
              some { c with state := CpuState.waitIo })) ∧
       (∀ v rest m, c.input_queue = v :: rest →
          c.write_param 0 instr v = some m →
          c.step = some { c with mem := m, input_queue := rest,
                                 pc := c.pc + 2, state := CpuState.running })) := by
  intro c instr hdec hop hst
  obtain ⟨pc, mem, iq, oq, st, rb⟩ := c
  simp only at hdec hst ⊢
  have hstep : ∀ s : CpuState,
      CPU.step ⟨pc, mem, iq, oq, s, rb⟩ =
        CPU.execute ⟨pc, mem, iq, oq, s, rb⟩ instr := by
    intro s
    unfold CPU.step
    rw [show (⟨pc, mem, iq, oq, s, rb⟩ : CPU).mem = mem from rfl,
        show (⟨pc, mem, iq, oq, s, rb⟩ : CPU).pc = pc from rfl, hdec]
    rfl
  constructor
  · intro hq
    subst hq
    have hexec : ∀ s : CpuState, s ≠ CpuState.halted →
        CPU.execute ⟨pc, mem, [], oq, s, rb⟩ instr =
          some ⟨pc, mem, [], oq, CpuState.waitIo, rb⟩ := by
      intro s hs
      unfold CPU.execute
      rw [if_neg hs, hop]
      rfl
    have hrun : ∀ s : CpuState, ∀ fuel, 2 ≤ fuel →
        CPU.run fuel ⟨pc, mem, [], oq, s, rb⟩ =
          some ⟨pc, mem, [], oq, CpuState.waitIo, rb⟩ := by
      intro s fuel hf
      obtain ⟨k, rfl⟩ : ∃ k, fuel = k + 2 := ⟨fuel - 2, by omega⟩
      unfold CPU.run
      rw [show k + 2 = (k + 1) + 1 from rfl, runLoop_succ]
      rw [if_pos rfl, hstep CpuState.running,
          hexec CpuState.running (by simp)]
      show runLoop (k + 1) ⟨pc, mem, [], oq, CpuState.waitIo, rb⟩ =
        some ⟨pc, mem, [], oq, CpuState.waitIo, rb⟩
      rw [runLoop_succ, if_neg (by simp)]
    refine ⟨?_, fun fuel hf => hrun st fuel hf,
            fun fuel hf => hrun CpuState.waitIo fuel hf⟩
    rw [hstep st]
    exact hexec st hst
  · intro v rest m hq hw
    subst hq
    rw [hstep st]
    unfold CPU.execute
    rw [if_neg hst, hop]
    show (do
        let m2 ← CPU.write_param ⟨pc, mem, v :: rest, oq, st, rb⟩ 0 instr v
        pure (⟨pc + 2, m2, rest, oq, CpuState.running, rb⟩ : CPU) :
          Option CPU) = some ⟨pc + 2, m, rest, oq, CpuState.running, rb⟩
    rw [hw]
    rfl

/-- C5 witness: a running CPU whose current instruction is `3` (input to
address 0) with an empty input queue steps to the waiting state with
nothing else changed. -/
theorem input_suspension_spec_witness :
    CPU.step ⟨0, ⟨[3, 0, 99], []⟩, [], [], CpuState.running, 0⟩ =
      some ⟨0, ⟨[3, 0, 99], []⟩, [], [], CpuState.waitIo, 0⟩ :=
  ((input_suspension_spec ⟨0, ⟨[3, 0, 99], []⟩, [], [], CpuState.running, 0⟩
      ⟨Op.input, 1, [ParamMode.address]⟩ (by decide) rfl (by decide)).1 rfl).1


/-! ### Claim C8: immediate-mode destinations are fatal -/

/-- C8: resolving the destination operand of a writing instruction in
immediate mode is a fatal error: `write_param` panics on an immediate-mode
operand, a successful `write_param` only ever happens through positional or
relative mode, and `execute` fails fatally for an add, mul, less-than or
equals instruction whose destination mode is immediate — likewise for an
input instruction (with input available) whose destination mode is
immediate. -/
theorem immediate_destination_fatal :
    ∀ (c : CPU) (num : Nat) (instr : Instruction) (v : Int),
      (instr.param_mode num = some ParamMode.immediate →
        c.write_param num instr v = none) ∧
      (∀ m, c.write_param num instr v = some m →
        instr.param_mode num = some ParamMode.address ∨
        instr.param_mode num = some ParamMode.relativeAddress) ∧
      (c.state ≠ CpuState.halted →
        instr.param_mode 2 = some ParamMode.immediate →
        (instr.opcode = Op.add ∨ instr.opcode = Op.mul ∨
         instr.opcode = Op.lessThan ∨ instr.opcode = Op.equals) →
        c.execute instr = none) ∧
      (c.state ≠ CpuState.halted → instr.opcode = Op.input →
        instr.param_mode 0 = some ParamMode.immediate →
        c.input_queue ≠ [] → c.execute instr = none) := by
  intro c num instr v
  have hwp : ∀ (n : Nat) (w : Int), instr.param_mode n = some ParamMode.immediate →
      c.write_param n instr w = none := by
    intro n w h
    unfold CPU.write_param
    rw [h]
  refine ⟨hwp num v, ?_, ?_, ?_⟩
  · intro m h
    unfold CPU.write_param at h
    cases hm : instr.param_mode num with
    | none => rw [hm] at h; simp at h
    | some pm =>
        cases pm with
        | immediate => rw [hm] at h; simp at h
        | address => exact Or.inl rfl
        | relativeAddress => exact Or.inr rfl
  · intro hst h2 hops
    unfold CPU.execute
    rw [if_neg hst]
    rcases hops with hop | hop | hop | hop
    · rw [hop]
      cases hr1 : c.read_param 0 instr with
      | none => rfl
      | some a1 =>
          cases hr2 : c.read_param 1 instr with
          | none => rfl
          | some a2 =>
              show (Option.bind (c.write_param 2 instr (a1 + a2)) fun m =>
                some ({ c with mem := m, pc := c.pc + 4 } : CPU)) = none
              rw [hwp 2 (a1 + a2) h2]
              rfl
    · rw [hop]
      cases hr1 : c.read_param 0 instr with
      | none => rfl
      | some a1 =>
          cases hr2 : c.read_param 1 instr with
          | none => rfl
          | some a2 =>
              show (Option.bind (c.write_param 2 instr (a1 * a2)) fun m =>
                some ({ c with mem := m, pc := c.pc + 4 } : CPU)) = none
              rw [hwp 2 (a1 * a2) h2]
              rfl
    · rw [hop]
      cases hr1 : c.read_param 0 instr with
      | none => rfl
      | some a1 =>
          cases hr2 : c.read_param 1 instr with
          | none => rfl
          | some a2 =>
              show (Option.bind
                  (c.write_param 2 instr (if a1 < a2 then 1 else 0)) fun m =>
                some ({ c with mem := m, pc := c.pc + 4 } : CPU)) = none
              rw [hwp 2 (if a1 < a2 then 1 else 0) h2]
              rfl
    · rw [hop]
      cases hr1 : c.read_param 0 instr with
      | none => rfl
      | some a1 =>
          cases hr2 : c.read_param 1 instr with
          | none => rfl
          | some a2 =>
              show (Option.bind
                  (c.write_param 2 instr (if a1 = a2 then 1 else 0)) fun m =>
                some ({ c with mem := m, pc := c.pc + 4 } : CPU)) = none
              rw [hwp 2 (if a1 = a2 then 1 else 0) h2]
              rfl
  · intro hst hop h0 hq
    unfold CPU.execute
    rw [if_neg hst, hop]
    cases hiq : c.input_queue with
    | nil => exact absurd hiq hq
    | cons v2 rest =>
        show (Option.bind (c.write_param 0 instr v2) fun m =>
          some ({ c with mem := m, input_queue := rest, pc := c.pc + 2,
                         state := CpuState.running } : CPU)) = none
        rw [hwp 0 v2 h0]
        rfl

/-- C8 witness: a concrete add instruction `11101` (all-immediate modes)
executed on a running CPU aborts, and `write_param` on its immediate
destination aborts. -/
theorem immediate_destination_fatal_witness :
    CPU.write_param ⟨0, ⟨[11101, 1, 2, 3], []⟩, [], [], CpuState.running, 0⟩ 2
      ⟨Op.add, 3, [ParamMode.immediate, ParamMode.immediate, ParamMode.immediate]⟩ 5 =
      none ∧
    CPU.execute ⟨0, ⟨[11101, 1, 2, 3], []⟩, [], [], CpuState.running, 0⟩
      ⟨Op.add, 3, [ParamMode.immediate, ParamMode.immediate, ParamMode.immediate]⟩ =
      none :=
  ⟨(immediate_destination_fatal
      ⟨0, ⟨[11101, 1, 2, 3], []⟩, [], [], CpuState.running, 0⟩ 2
      ⟨Op.add, 3, [ParamMode.immediate, ParamMode.immediate, ParamMode.immediate]⟩ 5).1
      (by decide),
   (immediate_destination_fatal
      ⟨0, ⟨[11101, 1, 2, 3], []⟩, [], [], CpuState.running, 0⟩ 2
      ⟨Op.add, 3, [ParamMode.immediate, ParamMode.immediate, ParamMode.immediate]⟩ 5).2.2.1
      (by decide) (by decide) (Or.inl rfl)⟩


/-! ### Claim C3 (corrected): negative computed addresses wrap silently -/

/-- C3 counterexample: in the program `[204, -5, 99]` the relative-mode
operand of the output instruction resolves to the negative computed address
`0 + (-5)`, yet the engine does not fail: `run` completes normally, halting
with output `[0]` (the default value of the huge wrapped address). -/
theorem negative_address_silent_wrap_counterexample :
    (CPU.new [204, -5, 99]).relative_base +
      (CPU.new [204, -5, 99]).mem.read 1 < 0 ∧
    CPU.run 8 (CPU.new [204, -5, 99]) =
      some ⟨2, ⟨[204, -5, 99], []⟩, [], [0], CpuState.halted, 0⟩ := by
  decide

/-- C3 amended: a positional or relative operand that computes a negative
address does not fail fatally; the `as usize` cast silently wraps it
(two's-complement: the value modulo 2^64, always non-negative) and the
resolved `Nat` address is read or written normally. -/
theorem negative_address_wraps :
    (∀ x : Int, 0 ≤ x % (2 ^ 64 : Int) ∧
      (i64ToUsize x : Int) = x % (2 ^ 64 : Int)) ∧
    (∀ (c : CPU) (num : Nat) (instr : Instruction),
      (instr.param_mode num = some ParamMode.relativeAddress →
        c.read_param num instr =
          some (c.mem.read
            (i64ToUsize (c.relative_base + c.mem.read (c.pc + 1 + num)))) ∧
        ∀ v, c.write_param num instr v =
          some (c.mem.write
            (i64ToUsize (c.relative_base + c.mem.read (c.pc + 1 + num))) v)) ∧
      (instr.param_mode num = some ParamMode.address →
        c.read_param num instr =
          some (c.mem.read (i64ToUsize (c.mem.read (c.pc + 1 + num)))) ∧
        ∀ v, c.write_param num instr v =
          some (c.mem.write (i64ToUsize (c.mem.read (c.pc + 1 + num))) v))) := by
  constructor
  · intro x
    have h2 : (0 : Int) < 2 ^ 64 := by norm_num
    have hnn : 0 ≤ x % (2 ^ 64 : Int) := Int.emod_nonneg x (by norm_num)
    exact ⟨hnn, Int.toNat_of_nonneg hnn⟩
  · intro c num instr
    constructor
    · intro h
      constructor
      · unfold CPU.read_param
        rw [h]
      · intro v
        unfold CPU.write_param
        rw [h]
    · intro h
      constructor
      · unfold CPU.read_param
        rw [h]
      · intro v
        unfold CPU.write_param
        rw [h]

/-- C3 amended witness: for the CPU of the counterexample program, the
relative operand with value `-5` resolves via the wrapping cast and the
read succeeds. -/
theorem negative_address_wraps_witness :
    CPU.read_param ⟨0, ⟨[204, -5, 99], []⟩, [], [], CpuState.running, 0⟩ 0
      ⟨Op.output, 1, [ParamMode.relativeAddress]⟩ =
      some ((⟨[204, -5, 99], []⟩ : Memory).read
        (i64ToUsize ((0 : Int) + (⟨[204, -5, 99], []⟩ : Memory).read 1))) :=
  ((negative_address_wraps.2
      ⟨0, ⟨[204, -5, 99], []⟩, [], [], CpuState.running, 0⟩ 0
      ⟨Op.output, 1, [ParamMode.relativeAddress]⟩).1 rfl).1

/-! ### Claim C4 (corrected): step on Halted is fatal, run is not -/

/-- C4 counterexample: running `[99]` to the halted state and calling
`run()` again does not abort — it returns normally with the CPU unchanged
(`run` resets the status to Running and re-executes the halt instruction),
contradicting the claim that `run()` on a Halted CPU is a fatal error. -/
theorem run_on_halted_cpu_succeeds_counterexample :
    CPU.run 8 (CPU.new [99]) =
      some ⟨0, ⟨[99], []⟩, [], [], CpuState.halted, 0⟩ ∧
    CPU.run 8 ⟨0, ⟨[99], []⟩, [], [], CpuState.halted, 0⟩ =
      some ⟨0, ⟨[99], []⟩, [], [], CpuState.halted, 0⟩ := by
  decide

/-- C4 amended: calling `step()` (or `execute`) on a CPU whose status is
Halted is a fatal, unrecoverable usage error; `run()` however first resets
the status to Running, so it does not abort: on a CPU halted at a halt
instruction it simply re-executes the halt and returns with the CPU
unchanged. -/
theorem halted_step_fatal_run_restarts :
    (∀ c : CPU, c.state = CpuState.halted → c.step = none) ∧
    (∀ (c : CPU) (instr : Instruction), c.state = CpuState.halted →
      c.execute instr = none) ∧
    (∀ (c : CPU) (instr : Instruction) (fuel : Nat),
      c.state = CpuState.halted →
      Instruction.tryFrom (c.mem.read c.pc) = some instr →
      instr.opcode = Op.halt →
      2 ≤ fuel → c.run fuel = some c) := by
  have hexec : ∀ (c : CPU) (instr : Instruction), c.state = CpuState.halted →
      c.execute instr = none := by
    intro c instr h
    unfold CPU.execute
    rw [if_pos h]
  refine ⟨?_, hexec, ?_⟩
  · intro c h
    unfold CPU.step
    cases hdec : Instruction.tryFrom (c.mem.read c.pc) with
    | none => rfl
    | some instr =>
        show (Option.bind (some instr) fun i => c.execute i) = none
        rw [Option.some_bind]
        exact hexec c instr h
  · intro c instr fuel h hdec hop hf
    obtain ⟨pc, mem, iq, oq, st, rb⟩ := c
    simp only at hdec h ⊢
    subst h
    obtain ⟨k, rfl⟩ : ∃ k, fuel = k + 2 := ⟨fuel - 2, by omega⟩
    unfold CPU.run
    rw [show k + 2 = (k + 1) + 1 from rfl, runLoop_succ, if_pos rfl]
    have hstep : CPU.step ⟨pc, mem, iq, oq, CpuState.running, rb⟩ =
        some ⟨pc, mem, iq, oq, CpuState.halted, rb⟩ := by
      unfold CPU.step
      rw [show (⟨pc, mem, iq, oq, CpuState.running, rb⟩ : CPU).mem = mem from rfl,
          show (⟨pc, mem, iq, oq, CpuState.running, rb⟩ : CPU).pc = pc from rfl,
          hdec]
      show (Option.bind (some instr) fun i =>
        CPU.execute ⟨pc, mem, iq, oq, CpuState.running, rb⟩ i) = _
      rw [Option.some_bind]
      unfold CPU.execute
      rw [if_neg (by simp), hop]
      rfl
    rw [hstep]
    show runLoop (k + 1) ⟨pc, mem, iq, oq, CpuState.halted, rb⟩ =
      some ⟨pc, mem, iq, oq, CpuState.halted, rb⟩
    rw [runLoop_succ, if_neg (by simp)]

/-- C4 amended witness: on the concrete halted CPU of the counterexample,
`step` aborts while `run` (fuel 2) returns the CPU unchanged. -/
theorem halted_step_fatal_run_restarts_witness :
    CPU.step ⟨0, ⟨[99], []⟩, [], [], CpuState.halted, 0⟩ = none ∧
    CPU.run 2 ⟨0, ⟨[99], []⟩, [], [], CpuState.halted, 0⟩ =
      some ⟨0, ⟨[99], []⟩, [], [], CpuState.halted, 0⟩ :=
  ⟨halted_step_fatal_run_restarts.1
      ⟨0, ⟨[99], []⟩, [], [], CpuState.halted, 0⟩ rfl,
   halted_step_fatal_run_restarts.2.2
      ⟨0, ⟨[99], []⟩, [], [], CpuState.halted, 0⟩
      ⟨Op.halt, 0, []⟩ 2 rfl (by decide) rfl (by omega)⟩


/-! ### Claim C7: memory read/write semantics -/

/-- C7: for every non-negative address, a read on a fresh memory returns the
image value inside the original program length (and 0 beyond it); after
`write addr v`, a read of `addr` returns `v` whether `addr` is in-image or
beyond; writes to one address do not disturb reads of any other address
(so a never-rewritten address keeps its image value / 0 default); reads are
total, never failing for any non-negative address. -/
theorem memory_read_write_spec :
    (∀ (prog : List Int) (addr : Nat),
        (Memory.new prog).read addr = prog.getD addr 0) ∧
    (∀ (m : Memory) (addr : Nat) (v : Int), (m.write addr v).read addr = v) ∧
    (∀ (m : Memory) (a b : Nat) (v : Int), a ≠ b →
        (m.write a v).read b = m.read b) :=
  ⟨Memory.read_new, Memory.read_write_self, Memory.read_write_ne⟩

/-- C7 witness: the general theorem applied at concrete inputs — image read,
beyond-image default, read-after-write beyond the image, and an untouched
address across a write. -/
theorem memory_read_write_spec_witness :
    (Memory.new [7, 8]).read 1 = 8 ∧
    (Memory.new [7, 8]).read 5 = 0 ∧
    ((Memory.new [7]).write 5 42).read 5 = 42 ∧
    ((Memory.new [7]).write 5 42).read 0 = (Memory.new [7]).read 0 :=
  ⟨memory_read_write_spec.1 [7, 8] 1,
   memory_read_write_spec.1 [7, 8] 5,
   memory_read_write_spec.2.1 (Memory.new [7]) 5 42,
   memory_read_write_spec.2.2 (Memory.new [7]) 5 0 42 (by decide)⟩

/-! ### Claim C6: consume_output_n drains all-or-nothing -/

/-- C6: for every CPU and every `n`, `consume_output_n n` returns `none` and
leaves the output queue completely unchanged when fewer than `n` values are
buffered; when the queue is `xs ++ rest` with `xs` of length `n`, it removes
and returns exactly `xs` (the first `n` values in FIFO order), leaving
`rest` in order. -/
theorem consume_output_n_spec :
    ∀ (c : CPU) (n : Nat),
      (c.output_queue.length < n → c.consume_output_n n = (none, c)) ∧
      (∀ xs rest, c.output_queue = xs ++ rest → xs.length = n →
          c.consume_output_n n = (some xs, { c with output_queue := rest })) := by
  intro c n
  constructor
  · intro h
    unfold CPU.consume_output_n
    rw [if_neg (by omega)]
  · intro xs rest hq hlen
    unfold CPU.consume_output_n
    rw [if_pos (by rw [hq, List.length_append]; omega)]
    subst hlen
    rw [hq, List.take_left, List.drop_left]

/-- C6 witness: with three buffered values, requesting five yields `none`
with the queue untouched, and requesting two removes exactly the first
two. -/
theorem consume_output_n_spec_witness :
    CPU.consume_output_n ⟨0, Memory.new [99], [], [10, 20, 30], CpuState.halted, 0⟩ 5 =
      (none, ⟨0, Memory.new [99], [], [10, 20, 30], CpuState.halted, 0⟩) ∧
    CPU.consume_output_n ⟨0, Memory.new [99], [], [10, 20, 30], CpuState.halted, 0⟩ 2 =
      (some [10, 20], ⟨0, Memory.new [99], [], [30], CpuState.halted, 0⟩) :=
  ⟨(consume_output_n_spec ⟨0, Memory.new [99], [], [10, 20, 30], CpuState.halted, 0⟩ 5).1
      (by decide),
   (consume_output_n_spec ⟨0, Memory.new [99], [], [10, 20, 30], CpuState.halted, 0⟩ 2).2
      [10, 20] [30] rfl rfl⟩

/-! ### Claim C10: peek_output_last -/

/-- C10: `peek_output_last` returns the most recently produced output value
(the back of the output queue) as `some`, and `none` exactly when the output
queue is empty.  The Rust method takes `&self`, so it is modelled as a pure
observation of the CPU: it removes nothing and changes no CPU state, and
repeated calls trivially return the same result. -/
theorem peek_output_last_spec :
    ∀ c : CPU,
      (c.peek_output_last = none ↔ c.output_queue = []) ∧
      (∀ q v, c.output_queue = q ++ [v] → c.peek_output_last = some v) := by
  intro c
  constructor
  · exact List.getLast?_eq_none_iff
  · intro q v hq
    unfold CPU.peek_output_last
    rw [hq]
    exact List.getLast?_concat q

/-- C10 witness: on an output queue `[1, 2]` the peek returns `some 2`, and
on an empty queue it returns `none`. -/
theorem peek_output_last_spec_witness :
    CPU.peek_output_last ⟨0, Memory.new [99], [], [1, 2], CpuState.halted, 0⟩ = some 2 ∧
    CPU.peek_output_last ⟨0, Memory.new [99], [], [], CpuState.halted, 0⟩ = none :=
  ⟨(peek_output_last_spec ⟨0, Memory.new [99], [], [1, 2], CpuState.halted, 0⟩).2
      [1] 2 rfl,
   (peek_output_last_spec ⟨0, Memory.new [99], [], [], CpuState.halted, 0⟩).1.mpr rfl⟩

end Intcode
